import Mathlib

/-!
Verification development for the `data_explorer` array-viewer application.

The Python sources (`data_explorer/app.py` and
`data_explorer/docks/panels/image_configuration.py`) are shallowly embedded
below.  Numeric array elements are modelled by `Val`, an exact-rational
rendering of IEEE floating point values extended with the non-finite
elements `nan` / `+inf` / `-inf`; Qt widgets that carry state (double spin
boxes, combo boxes, sliders) are modelled as explicit records, and the
synchronous Qt signal cascade `valueChanged -> update_clim` is modelled by
a fuel-indexed function (the fuel is only a termination device: the cascade
provably stops after nested depth two, well below the fuel used).
Fallible Python code (exceptions) is modelled with `Except` / `Option`.
-/

set_option autoImplicit false

/-- Element of a numpy float array: a finite rational or a non-finite IEEE
special value. -/
inductive Val where
  | fin (q : ℚ)
  | nan
  | pinf
  | ninf
deriving DecidableEq

/-- True for `nan`, `+inf` and `-inf`: exactly the elements reported by
`np.isnan(...) | np.isinf(...)` in `OperationPanel._create`. -/
def Val.isNonFinite : Val → Bool
  | .fin _ => false
  | _ => true

/-- Elementwise addition for `lambda a, b: a + b` under
`np.errstate(divide="raise", invalid="raise")`: `none` models a raised
`FloatingPointError` (the invalid operation `inf + -inf`). -/
def addVal : Val → Val → Option Val
  | .fin a, .fin b => some (.fin (a + b))
  | .nan, _ => some .nan
  | _, .nan => some .nan
  | .pinf, .ninf => none
  | .ninf, .pinf => none
  | .pinf, _ => some .pinf
  | _, .pinf => some .pinf
  | .ninf, _ => some .ninf
  | _, .ninf => some .ninf

/-- Elementwise subtraction for `lambda a, b: a - b`; `inf - inf` and
`-inf - -inf` are invalid operations and raise under `errstate`. -/
def subVal : Val → Val → Option Val
  | .fin a, .fin b => some (.fin (a - b))
  | .nan, _ => some .nan
  | _, .nan => some .nan
  | .pinf, .pinf => none
  | .ninf, .ninf => none
  | .pinf, _ => some .pinf
  | .ninf, _ => some .ninf
  | _, .pinf => some .ninf
  | _, .ninf => some .pinf

/-- Elementwise division for `lambda a, b: a / b` under
`errstate(divide="raise", invalid="raise")`: finite/0 raises (divide or
invalid), `inf/inf` raises (invalid), `x/inf` is 0, `inf/finite` keeps the
sign of the denominator. -/
def divVal : Val → Val → Option Val
  | .fin a, .fin b => if b = 0 then none else some (.fin (a / b))
  | .nan, _ => some .nan
  | _, .nan => some .nan
  | .fin _, .pinf => some (.fin 0)
  | .fin _, .ninf => some (.fin 0)
  | .pinf, .pinf => none
  | .pinf, .ninf => none
  | .ninf, .pinf => none
  | .ninf, .ninf => none
  | .pinf, .fin b => some (if b < 0 then .ninf else .pinf)
  | .ninf, .fin b => some (if b < 0 then .pinf else .ninf)

/-- Comparison `array > threshold` elementwise (IEEE: `nan` compares false). -/
def valGt : Val → ℚ → Bool
  | .fin a, t => decide (t < a)
  | .nan, _ => false
  | .pinf, _ => true
  | .ninf, _ => false

/-- Comparison `array < threshold` elementwise. -/
def valLt : Val → ℚ → Bool
  | .fin a, t => decide (a < t)
  | .nan, _ => false
  | .pinf, _ => false
  | .ninf, _ => true

/-- Comparison `array >= threshold` elementwise. -/
def valGe : Val → ℚ → Bool
  | .fin a, t => decide (t ≤ a)
  | .nan, _ => false
  | .pinf, _ => true
  | .ninf, _ => false

/-- Comparison `array <= threshold` elementwise. -/
def valLe : Val → ℚ → Bool
  | .fin a, t => decide (a ≤ t)
  | .nan, _ => false
  | .pinf, _ => false
  | .ninf, _ => true

/-- Comparison `array == threshold` elementwise (`nan == x` is false). -/
def valEq : Val → ℚ → Bool
  | .fin a, t => decide (a = t)
  | .nan, _ => false
  | .pinf, _ => false
  | .ninf, _ => false

/-- Python `str` of an `Optional[str]` as used inside an f-string. -/
def pyStrOpt : Option String → String
  | some s => s
  | none => "None"

/-- The `SimpleOperation` dataclass of `app.py`. -/
structure SimpleOperation where
  description : String
  operator : Option String
  calcFn : Val → Val → Option Val

/-- The `ThresholdOperation` dataclass of `app.py` (its `calculation`
compares an array against a scalar, yielding a boolean array). -/
structure ThresholdOperation where
  description : String
  operator : Option String
  test : Val → ℚ → Bool

/-- `TWO_PIECE_OPERATIONS` of `app.py`. -/
def TWO_PIECE_OPERATIONS : List SimpleOperation :=
  [⟨"Difference", some "-", subVal⟩,
   ⟨"Division", some "/", divVal⟩,
   ⟨"Sum", some "+", addVal⟩]

/-- `THRESHOLD_OPERATIONS` of `app.py`. -/
def THRESHOLD_OPERATIONS : List ThresholdOperation :=
  [⟨"Greater than", some ">", valGt⟩,
   ⟨"Less than", some "<", valLt⟩,
   ⟨"Greater or equal to", some ">=", valGe⟩,
   ⟨"Less or equal to", some "<=", valLe⟩,
   ⟨"Equal to", some "==", valEq⟩]

/-- A numpy ndarray: a dimension list and an element lookup keyed by a full
index tuple (only indices pointwise below `shape` are meaningful). -/
structure NpArr where
  shape : List ℕ
  data : List ℕ → Val

/-- All valid index tuples of a shape, in row-major order. -/
def idxList : List ℕ → List (List ℕ)
  | [] => [[]]
  | n :: rest => (List.range n).flatMap fun i => (idxList rest).map fun ix => i :: ix

/-- Python `shape[-3:]`: the trailing (at most) three dimensions. -/
def lastThree (l : List ℕ) : List ℕ := l.drop (l.length - 3)

/-- True when every elementwise application succeeds, i.e. the numpy
computation runs to completion without `errstate` raising. -/
def calcOk (f : Val → Val → Option Val) (a b : NpArr) : Bool :=
  (idxList a.shape).all fun ix => (f (a.data ix) (b.data ix)).isSome

/-- Whole-array binary operation as performed inside
`OperationPanel._create`: an `errstate`-raised `FloatingPointError` aborts
the computation, otherwise the elementwise result array is produced. -/
def calcArr (f : Val → Val → Option Val) (a b : NpArr) : Except String NpArr :=
  if calcOk f a b then
    .ok ⟨a.shape, fun ix => (f (a.data ix) (b.data ix)).getD Val.nan⟩
  else .error "FloatingPointError"

/-- The check `np.isnan(new_arr).any() or np.isinf(new_arr).any()`. -/
def hasNonFinite (a : NpArr) : Bool :=
  (idxList a.shape).any fun ix => (a.data ix).isNonFinite

/-- Python `int(q)` on a float: truncation toward zero. -/
def pyInt (q : ℚ) : ℤ := if 0 ≤ q then ⌊q⌋ else ⌈q⌉

/-- numpy `.round()`: round half to even. -/
def npRound (q : ℚ) : ℤ :=
  if q - ⌊q⌋ < 1/2 then ⌊q⌋
  else if 1/2 < q - ⌊q⌋ then ⌊q⌋ + 1
  else if ⌊q⌋ % 2 = 0 then ⌊q⌋ else ⌊q⌋ + 1

/-- numpy `np.clip(v, lo, hi)` (the upper bound is applied last). -/
def npClip (v lo hi : ℤ) : ℤ := min hi (max lo v)

/-- numpy basic integer indexing along one axis of extent `n`: indices in
`[-n, n-1]` are valid (negative ones count from the end), anything else
raises `IndexError`, modelled by `none`. -/
def npIdx (n : ℕ) (i : ℤ) : Option ℕ :=
  if -(n : ℤ) ≤ i ∧ i < (n : ℤ) then
    some (if i < 0 then (i + (n : ℤ)).toNat else i.toNat)
  else none

/-- `ArrayViewerApp.advance_frame`: the slider is set to
`(slider.value() + 1) % num_frames`; the slider itself clamps assigned
values to its range `[0, num_frames - 1]`. -/
def advance_frame (sliderVal numFrames : ℤ) : ℤ :=
  min (numFrames - 1) (max 0 ((sliderVal + 1) % numFrames))

/-- `ArrayDock.mouse_moved` on a dock whose array has the given height and
width: the view coordinate is shifted to centre alignment, rounded to the
nearest pixel, clipped into the data bounds and shifted back; the resulting
pair is emitted on `update_cursor_signal`. -/
def mouse_moved_emit (height width : ℕ) (x y : ℚ) : ℚ × ℚ :=
  let ix : ℤ := npClip (npRound (x - 1/2)) 0 ((width : ℤ) - 1)
  let iy : ℤ := npClip (npRound (y - 1/2)) 0 ((height : ℤ) - 1)
  ((ix : ℚ) + 1/2, (iy : ℚ) + 1/2)

/-- A value as displayed in a dock's cursor overlay: either an array element
or a boolean produced by an armed threshold rule. -/
inductive Pixel where
  | val (v : Val)
  | bool (b : Bool)
deriving DecidableEq

/-- The value-lookup portion of `ArrayDock.sync_crosshair`: the cursor
position is truncated to integers, the current frame is selected from the
3-d array (numpy indexing), an armed threshold rule is applied to the whole
frame, and the pixel is read; a raised `IndexError` anywhere in the `try`
block degrades the value to `float("nan")`. -/
def sync_crosshair_value (frames height width : ℕ) (data : ℕ → ℕ → ℕ → Val)
    (frame : ℤ) (thresholdOp : Option ThresholdOperation) (thresholdVal : ℚ)
    (x y : ℚ) : Pixel :=
  let ix := pyInt x
  let iy := pyInt y
  match npIdx frames frame with
  | none => Pixel.val Val.nan
  | some f =>
    match npIdx height iy, npIdx width ix with
    | some i, some j =>
      match thresholdOp with
      | none => Pixel.val (data f i j)
      | some op => Pixel.bool (op.test (data f i j) thresholdVal)
    | _, _ => Pixel.val Val.nan

/-- A `QDoubleSpinBox`: a range `[lo, hi]` and a current value.  Assigned
values are clamped into the range. -/
structure SpinBox where
  lo : ℚ
  hi : ℚ
  val : ℚ
deriving DecidableEq

/-- `QDoubleSpinBox.setValue`: clamp into range; the boolean reports
whether the stored value changed (whether `valueChanged` is emitted). -/
def setValuePure (s : SpinBox) (v : ℚ) : SpinBox × Bool :=
  let v' := max s.lo (min s.hi v)
  ({ s with val := v' }, if v' = s.val then false else true)

/-- `QDoubleSpinBox.setMinimum`: the maximum is raised if it would drop
below the new minimum, and the value is re-clamped (emitting
`valueChanged` when it changes). -/
def setMinimumPure (s : SpinBox) (m : ℚ) : SpinBox × Bool :=
  let hi' := max s.hi m
  let v' := max m (min hi' s.val)
  (⟨m, hi', v'⟩, if v' = s.val then false else true)

/-- `QDoubleSpinBox.setMaximum`: dual to `setMinimumPure`. -/
def setMaximumPure (s : SpinBox) (m : ℚ) : SpinBox × Bool :=
  let lo' := min s.lo m
  let v' := min m (max lo' s.val)
  (⟨lo', m, v'⟩, if v' = s.val then false else true)

/-- `COLOURMAPS` of `app.py`. -/
def COLOURMAPS : List String := ["gray", "viridis", "plasma", "inferno", "magma"]

/-- The colour-control state of an `ArrayDock`: the `vmin`/`vmax` spin
boxes, the colormap combo box, the levels last applied to the image item,
and the shared enabled flag of the three widgets. -/
structure ColourState where
  vmin : SpinBox
  vmax : SpinBox
  cmap : String
  levels : ℚ × ℚ
  enabled : Bool
deriving DecidableEq

/-- `ArrayDock.update_clim`, together with the synchronous signal cascade
it can trigger: `setMinimum` / `setMaximum` may clamp the other spin box's
value, whose `valueChanged` signal re-enters `update_clim`.  The fuel
argument only bounds that re-entrancy; the cascade provably terminates at
nested depth two (see `updateClim_isSome`), so any fuel of at least three
computes the exact Python behaviour. -/
def updateClim : ℕ → ColourState → Option ColourState
  | 0, _ => none
  | n + 1, st0 =>
    let st1 := { st0 with levels := (st0.vmin.val, st0.vmax.val) }
    let r1 := setMinimumPure st1.vmax st1.vmin.val
    let st2 := { st1 with vmax := r1.1 }
    match (if r1.2 then updateClim n st2 else some st2) with
    | none => none
    | some st3 =>
      let r2 := setMaximumPure st3.vmin st3.vmax.val
      let st4 := { st3 with vmin := r2.1 }
      if r2.2 then updateClim n st4 else some st4

/-- Fuel used for every top-level signal chain; see `updateClim`. -/
def FUEL : ℕ := 5

/-- `vmin_spin.setValue` with its connected `valueChanged -> update_clim`. -/
def vminSetValue (st : ColourState) (v : ℚ) : Option ColourState :=
  let r := setValuePure st.vmin v
  let st1 := { st with vmin := r.1 }
  if r.2 then updateClim FUEL st1 else some st1

/-- `vmax_spin.setValue` with its connected `valueChanged -> update_clim`. -/
def vmaxSetValue (st : ColourState) (v : ℚ) : Option ColourState :=
  let r := setValuePure st.vmax v
  let st1 := { st with vmax := r.1 }
  if r.2 then updateClim FUEL st1 else some st1

/-- `cmap_combo.setCurrentText`: a non-editable `QComboBox` only changes
its current text when the requested text is among its items. -/
def cmapSetCurrentText (st : ColourState) (s : String) : ColourState :=
  if s ∈ COLOURMAPS then { st with cmap := s } else st

/-- A user interaction with the colour controls of one dock. -/
inductive PanelEvent where
  | setVmin (q : ℚ)
  | setVmax (q : ℚ)
  | setCmap (s : String)

/-- Dispatch one colour-control interaction. -/
def stepEvent (st : ColourState) : PanelEvent → Option ColourState
  | .setVmin q => vminSetValue st q
  | .setVmax q => vmaxSetValue st q
  | .setCmap s => some (cmapSetCurrentText st s)

/-- Run a sequence of colour-control interactions. -/
def runEvents : List PanelEvent → ColourState → Option ColourState
  | [], st => some st
  | e :: rest, st => (stepEvent st e).bind (runEvents rest)

/-- The colour controls as built by `ArrayDock._build_control_panel`:
both spin boxes range over `[nanmin, nanmax]` of the array, `vmin`
defaults to the 1st and `vmax` to the 99th `nanpercentile`, and the combo
box starts on the first entry of `COLOURMAPS`.  The image levels are not
applied until the constructor's `set_frame(0)` runs `update_clim`. -/
def mkColourPanel (dataMin dataMax p1 p99 : ℚ) : ColourState :=
  ⟨⟨dataMin, dataMax, p1⟩, ⟨dataMin, dataMax, p99⟩, "gray", (0, 0), true⟩

/-- The colour state right after the dock constructor's `set_frame(0)` has
run `update_clim` once. -/
def initColour (dataMin dataMax p1 p99 : ℚ) : Option ColourState :=
  updateClim FUEL (mkColourPanel dataMin dataMax p1 p99)

/-- The per-dock state touched by the threshold feature of `ArrayDock`:
colour controls, the cached colour triple, the armed rule, the threshold
spin box value, the current frame, the (3-d) array and the image the dock
currently displays, plus the visibility of the add-threshold button and of
the threshold form. -/
structure ThDockState where
  colour : ColourState
  colourCache : String × ℚ × ℚ
  thresholdOp : Option ThresholdOperation
  thresholdVal : ℚ
  frame : ℕ
  arr : NpArr
  displayed : ℕ → ℕ → Pixel
  newThresholdButtonVisible : Bool
  thresholdFormVisible : Bool

/-- `ArrayDock.set_frame`: store the frame, slice and transpose it, apply
an armed threshold rule to the transposed slice, hand the image to the
image item and re-run `update_clim`.  (The crosshair-overlay refresh at
the end of the Python method touches no state modelled here.) -/
def set_frame (st : ThDockState) (f : ℕ) : Option ThDockState :=
  let img : ℕ → ℕ → Pixel :=
    match st.thresholdOp with
    | none => fun x y => Pixel.val (st.arr.data [f, y, x])
    | some op => fun x y => Pixel.bool (op.test (st.arr.data [f, y, x]) st.thresholdVal)
  (updateClim FUEL st.colour).map fun c =>
    { st with frame := f, displayed := img, colour := c }

/-- `ArrayDock._show_threshold_form`: cache the colour triple, force the
colour controls to `(gray, 0, 1)`, disable them, arm the rule, swap the
button for the form and re-render the current frame. -/
def show_threshold_form (st : ThDockState) (op : ThresholdOperation) :
    Option ThDockState :=
  (vminSetValue st.colour 0).bind fun c1 =>
  (vmaxSetValue c1 1).bind fun c2 =>
  set_frame { st with
              colour := { cmapSetCurrentText c2 "gray" with enabled := false }
              colourCache := (st.colour.cmap, st.colour.vmin.val, st.colour.vmax.val)
              thresholdOp := some op
              newThresholdButtonVisible := false
              thresholdFormVisible := true } st.frame

/-- `ArrayDock._cancel_threshold`: re-enable the colour controls, write the
cached triple back through the spin boxes and the combo box, disarm the
rule, swap the form for the button and re-render the current frame. -/
def cancel_threshold (st : ThDockState) : Option ThDockState :=
  (vminSetValue { st.colour with enabled := true } st.colourCache.2.1).bind fun c1 =>
  (vmaxSetValue c1 st.colourCache.2.2).bind fun c2 =>
  set_frame { st with
              colour := cmapSetCurrentText c2 st.colourCache.1
              thresholdOp := none
              thresholdFormVisible := false
              newThresholdButtonVisible := true } st.frame

/-- An `ArrayDock` as tracked by the application: its base title, the
instance number disambiguating docks of the same title, the derived flag
and its array. -/
structure Dock where
  title : String
  instanceNumber : ℤ
  isDerived : Bool
  arr : NpArr

/-- `ArrayDock.is_copy`: instance number greater than one. -/
def Dock.isCopy (d : Dock) : Bool := decide (1 < d.instanceNumber)

/-- The window title passed to `QDockWidget.__init__`:
`title if instance_number == 1 else title + f" ({instance_number})"`. -/
def Dock.displayedTitle (d : Dock) : String :=
  if d.instanceNumber = 1 then d.title
  else d.title ++ " (" ++ toString d.instanceNumber ++ ")"

/-- `ArrayDock.__init__`: a non-3-dimensional array is rejected with a
`ValueError` before any dock state is built. -/
def mkDock (arr : NpArr) (title : String) (instanceNumber : ℤ)
    (isDerived : Bool) : Except String Dock :=
  if arr.shape.length = 3 then .ok ⟨title, instanceNumber, isDerived, arr⟩
  else .error "Must be a 3 dimensional array (time, y, x)."

/-- The application state relevant to registration: the enforced shape,
the open docks in creation order and the per-title instance counters
(`ArrayViewerApp._enforced_shape`, `.docks`, `.dock_instances`). -/
structure AppState where
  enforcedShape : Option (List ℕ)
  docks : List Dock
  dockInstances : String → ℤ

/-- `ArrayViewerApp._validate_shape_of`: on first use the enforced shape is
fixed to `array.shape[-3:]`; a later mismatch raises a `ValueError`. -/
def validate_shape_of (st : AppState) (shape : List ℕ) : Except String AppState :=
  let enforced := st.enforcedShape.getD (lastThree shape)
  if lastThree shape = enforced then .ok { st with enforcedShape := some enforced }
  else
    .error ("Array provided has shape " ++ toString shape ++
      ", but it must be same as others (" ++ toString enforced ++ ").")

/-- `ArrayViewerApp._add_array`.  A raised Python exception leaves already
performed mutations in place, so the error case carries the state as
mutated up to the raise: a shape mismatch raises before anything is
mutated, while `ArrayDock.__init__` raises after the instance counter was
already incremented. -/
def add_array (st : AppState) (arr : NpArr) (title : String) (isDerived : Bool) :
    Except (String × AppState) AppState :=
  match validate_shape_of st arr.shape with
  | .error e => .error (e, st)
  | .ok st1 =>
    let newCount := st1.dockInstances title + 1
    let st2 := { st1 with
      dockInstances := fun t => if t = title then newCount else st1.dockInstances t }
    match mkDock arr title newCount isDerived with
    | .error e => .error (e, st2)
    | .ok dock => .ok { st2 with docks := st2.docks ++ [dock] }

/-- Keep the carried state whether or not the call raised. -/
def keepState : Except (String × AppState) AppState → AppState
  | .ok s => s
  | .error (_, s) => s

/-- `ArrayViewerApp.get_original_docks`: the non-copy docks. -/
def get_original_docks (st : AppState) : List Dock :=
  st.docks.filter fun d => !d.isCopy

/-- `ArrayViewerApp._remove_dock` for the dock at a given position: drop it
from the list and decrement the instance counter of its title. -/
def remove_dock_at (st : AppState) (i : ℕ) : AppState :=
  if h : i < st.docks.length then
    let d := st.docks.get ⟨i, h⟩
    { st with
      docks := st.docks.eraseIdx i
      dockInstances := fun t =>
        if t = d.title then st.dockInstances t - 1 else st.dockInstances t }
  else st

/-- `OperationPanel._create`: look the two operand arrays up among the
original docks, run the operation under `errstate`, reject a result with
NaNs or infinities with a warning dialog (no state change), and otherwise
register the result as a derived array titled `"a <op> b"`.  (The UI only
offers titles of existing original docks in the two combo boxes, so the
lookup cannot fail in reachable configurations; a missing title is
modelled as a no-op.) -/
def op_create (st : AppState) (op : SimpleOperation) (aTitle bTitle : String) :
    AppState :=
  match (get_original_docks st).find? (fun d => d.title == aTitle),
        (get_original_docks st).find? (fun d => d.title == bTitle) with
  | some da, some db =>
    match calcArr op.calcFn da.arr db.arr with
    | .error _ => st
    | .ok newArr =>
      if hasNonFinite newArr then st
      else
        keepState (add_array st newArr
          (aTitle ++ " " ++ pyStrOpt op.operator ++ " " ++ bTitle) true)
  | _, _ => st

/-- A user-level operation on the application: registering an array (the
constructor / embedding API), pressing Duplicate on the dock at an index,
closing the dock at an index, or creating a derived array from the
operation panel. -/
inductive AppOp where
  | register (arr : NpArr) (title : String)
  | duplicate (i : ℕ)
  | close (i : ℕ)
  | derive (op : SimpleOperation) (aTitle bTitle : String)

/-- Dispatch one application operation.  Duplicate buttons exist only on
non-copy docks, and only copies and derived docks carry the closable
feature, so other indices are no-ops. -/
def step (st : AppState) : AppOp → AppState
  | .register arr title => keepState (add_array st arr title false)
  | .duplicate i =>
    if h : i < st.docks.length then
      let d := st.docks.get ⟨i, h⟩
      if d.isCopy then st else keepState (add_array st d.arr d.title false)
    else st
  | .close i =>
    if h : i < st.docks.length then
      let d := st.docks.get ⟨i, h⟩
      if d.isCopy || d.isDerived then remove_dock_at st i else st
    else st
  | .derive op aT bT => op_create st op aT bT

/-- The state of a freshly constructed `ArrayViewerApp`, before any array
has been registered. -/
def initState : AppState := ⟨none, [], fun _ => 0⟩

/-- Run a sequence of application operations from the initial state. -/
def run (ops : List AppOp) : AppState := ops.foldl step initState

/-- A minimal 3-d array used for concrete instantiations. -/
def unitArr : NpArr := ⟨[1, 1, 1], fun _ => .fin 0⟩

/-- The first entry of `THRESHOLD_OPERATIONS`. -/
def threshGreaterThan : ThresholdOperation := ⟨"Greater than", some ">", valGt⟩

/-- A dock threshold state wrapped around a given colour state (array and
display of the minimal example dock). -/
def mkThState (c : ColourState) : ThDockState :=
  ⟨c, ("", 0, 0), none, 0, 0, unitArr, fun _ _ => .val (.fin 0), true, false⟩

/-- A concrete reachable dock state: data range `[-10, 10]` with 1st/99th
percentiles `-9` / `9`; after construction the user raises `vmax` to `8`,
then `vmin` to `3`, then selects the `viridis` colormap. -/
def c2Dock : Option ThDockState :=
  ((initColour (-10) 10 (-9) 9).bind
    (runEvents [.setVmax 8, .setVmin 3, .setCmap "viridis"])).bind fun c =>
      set_frame (mkThState c) 0

/-- Register one array, duplicate it twice, close the first duplicate
(suffix 2), then duplicate again. -/
def c3Ops : List AppOp :=
  [.register unitArr "A", .duplicate 0, .duplicate 0, .close 1, .duplicate 0]

/-- Well-formedness of the colour-control state maintained by
`update_clim`: each spin box value sits inside its range, `vmin`'s maximum
is `vmax`'s value, `vmax`'s minimum is `vmin`'s value, and the image
levels are the current value pair. -/
def ClimInv (st : ColourState) : Prop :=
  st.vmin.lo ≤ st.vmin.val ∧ st.vmin.val ≤ st.vmin.hi ∧
  st.vmax.lo ≤ st.vmax.val ∧ st.vmax.val ≤ st.vmax.hi ∧
  st.vmin.hi = st.vmax.val ∧ st.vmax.lo = st.vmin.val ∧
  st.levels = (st.vmin.val, st.vmax.val)

/-- Bookkeeping invariant of the dock list: counters are non-negative,
every open dock's instance number lies in `[1, counter of its title]`, and
docks sharing a title appear in strictly increasing instance order. -/
def TitleInv (st : AppState) : Prop :=
  (∀ t, 0 ≤ st.dockInstances t) ∧
  (∀ d ∈ st.docks, 1 ≤ d.instanceNumber ∧ d.instanceNumber ≤ st.dockInstances d.title) ∧
  st.docks.Pairwise fun d1 d2 => d1.title = d2.title → d1.instanceNumber < d2.instanceNumber

/-- Application states reachable when every close targets the most
recently created dock of its title (the dock whose instance number equals
the title's current counter). -/
inductive ReachL : AppState → Prop where
  | init : ReachL initState
  | reg {st : AppState} (arr : NpArr) (title : String) :
      ReachL st → ReachL (step st (.register arr title))
  | dup {st : AppState} (i : ℕ) :
      ReachL st → ReachL (step st (.duplicate i))
  | derive {st : AppState} (op : SimpleOperation) (aT bT : String) :
      ReachL st → ReachL (step st (.derive op aT bT))
  | close {st : AppState} (i : ℕ)
      (htop : ∀ hi : i < st.docks.length,
        (st.docks.get ⟨i, hi⟩).instanceNumber =
          st.dockInstances (st.docks.get ⟨i, hi⟩).title) :
      ReachL st → ReachL (step st (.close i))

/-- Concrete 1x1x1 array holding 4. -/
def arrFour : NpArr := ⟨[1, 1, 1], fun _ => .fin 4⟩

/-- Concrete 1x1x1 array holding 0. -/
def arrZero : NpArr := ⟨[1, 1, 1], fun _ => .fin 0⟩

/-- The application state after registering `arrFour` as "A" and `arrZero`
as "B". -/
def twoArrayState : AppState := run [.register arrFour "A", .register arrZero "B"]

/-- The dock created for "A" in `twoArrayState`. -/
def dockA : Dock := ⟨"A", 1, false, arrFour⟩

/-- The dock created for "B" in `twoArrayState`. -/
def dockB : Dock := ⟨"B", 1, false, arrZero⟩

/-- The second entry of `TWO_PIECE_OPERATIONS`. -/
def divisionOp : SimpleOperation := ⟨"Division", some "/", divVal⟩

/-- The third entry of `TWO_PIECE_OPERATIONS`. -/
def sumOp : SimpleOperation := ⟨"Sum", some "+", addVal⟩

/-- The elementwise sum of `arrFour` and `arrZero`, as `calcArr` builds it. -/
def sumArrAB : NpArr :=
  ⟨arrFour.shape, fun ix => (addVal (arrFour.data ix) (arrZero.data ix)).getD Val.nan⟩

/-- Helper: an index outside numpy's valid range `[-n, n-1]` raises
`IndexError`. -/
theorem npIdx_eq_none {n : ℕ} {i : ℤ} (h : i < -(n : ℤ) ∨ (n : ℤ) ≤ i) :
    npIdx n i = none := by
  unfold npIdx
  rw [if_neg]
  omega

/-- C7: a playback tick moves the slider from frame `f` to
`(f + 1) % num_frames`; in particular the last frame wraps to frame 0. -/
theorem advance_frame_wraps (f n : ℤ) (h0 : 0 ≤ f) (h1 : f < n) :
    advance_frame f n = (f + 1) % n ∧ (f = n - 1 → advance_frame f n = 0) := by
  have hn : 0 < n := lt_of_le_of_lt h0 h1
  have hm0 : 0 ≤ (f + 1) % n := Int.emod_nonneg _ (ne_of_gt hn)
  have hm1 : (f + 1) % n < n := Int.emod_lt_of_pos _ hn
  have hval : advance_frame f n = (f + 1) % n := by
    unfold advance_frame
    omega
  refine ⟨hval, fun hf => ?_⟩
  rw [hval, hf, sub_add_cancel, Int.emod_self]

/-- Witness for `advance_frame_wraps` at frame 2 of 3. -/
theorem advance_frame_wraps_witness :
    (0 : ℤ) ≤ 2 ∧ (2 : ℤ) < 3 ∧
      (advance_frame 2 3 = (2 + 1) % 3 ∧ ((2 : ℤ) = 3 - 1 → advance_frame 2 3 = 0)) :=
  ⟨by decide, by decide, advance_frame_wraps 2 3 (by decide) (by decide)⟩

/-- C6: for any pointer position (inside or outside the image), the pair
emitted by `mouse_moved` is the centre of an integer pixel whose x index
lies in `[0, width - 1]` and whose y index lies in `[0, height - 1]`. -/
theorem mouse_moved_emits_clamped_pixel (height width : ℕ) (x y : ℚ)
    (hh : 1 ≤ height) (hw : 1 ≤ width) :
    ∃ ix iy : ℤ, 0 ≤ ix ∧ ix ≤ (width : ℤ) - 1 ∧ 0 ≤ iy ∧ iy ≤ (height : ℤ) - 1 ∧
      mouse_moved_emit height width x y = ((ix : ℚ) + 1/2, (iy : ℚ) + 1/2) := by
  refine ⟨npClip (npRound (x - 1/2)) 0 ((width : ℤ) - 1),
          npClip (npRound (y - 1/2)) 0 ((height : ℤ) - 1), ?_, ?_, ?_, ?_, rfl⟩
  all_goals (unfold npClip; omega)

/-- Witness for `mouse_moved_emits_clamped_pixel` on a 4x6 image with the
pointer far outside the image. -/
theorem mouse_moved_emits_clamped_pixel_witness :
    1 ≤ 4 ∧ 1 ≤ 6 ∧
      ∃ ix iy : ℤ, 0 ≤ ix ∧ ix ≤ (6 : ℤ) - 1 ∧ 0 ≤ iy ∧ iy ≤ (4 : ℤ) - 1 ∧
        mouse_moved_emit 4 6 100 (-7) = ((ix : ℚ) + 1/2, (iy : ℚ) + 1/2) :=
  ⟨by decide, by decide, mouse_moved_emits_clamped_pixel 4 6 100 (-7) (by decide) (by decide)⟩

/-- C4 counterexample: on a 1x1x2 array holding values 5 and 7, the cursor
position x = -1 has integer pixel coordinate -1, which lies outside the
width bounds [0, 1]; yet the lookup does not degrade to the NaN sentinel:
numpy wraps the negative index and returns the last column's value 7. -/
theorem negative_cursor_wraps_not_nan :
    pyInt (-1) < 0 ∧
      sync_crosshair_value 1 1 2 (fun _ _ j => if j = 0 then .fin 5 else .fin 7)
        0 none 0 (-1) 0 = Pixel.val (Val.fin 7) ∧
      Pixel.val (Val.fin 7) ≠ Pixel.val Val.nan := by decide

/-- C4 amended: the lookup is a total function (the only exception the
`try` block can raise is the `IndexError` it catches), and it degrades to
the NaN sentinel exactly when an integer cursor coordinate leaves numpy's
valid range, i.e. `[-height, height - 1]` for y or `[-width, width - 1]`
for x (coordinates in the negative sub-range index from the end instead of
degrading). -/
theorem cursor_lookup_nan_outside_wrap_range (frames height width : ℕ)
    (data : ℕ → ℕ → ℕ → Val) (frame : ℤ) (op : Option ThresholdOperation)
    (tv : ℚ) (x y : ℚ)
    (h : pyInt y < -(height : ℤ) ∨ (height : ℤ) ≤ pyInt y ∨
         pyInt x < -(width : ℤ) ∨ (width : ℤ) ≤ pyInt x) :
    sync_crosshair_value frames height width data frame op tv x y =
      Pixel.val Val.nan := by
  have hnone : npIdx height (pyInt y) = none ∨ npIdx width (pyInt x) = none := by
    rcases h with h | h | h | h
    · exact Or.inl (npIdx_eq_none (Or.inl h))
    · exact Or.inl (npIdx_eq_none (Or.inr h))
    · exact Or.inr (npIdx_eq_none (Or.inl h))
    · exact Or.inr (npIdx_eq_none (Or.inr h))
  cases hf : npIdx frames frame with
  | none => simp only [sync_crosshair_value, hf]
  | some f =>
    rcases hnone with hn | hn
    · simp only [sync_crosshair_value, hf, hn]
    · simp only [sync_crosshair_value, hf, hn]
      cases npIdx height (pyInt y) <;> rfl

/-- Witness for `cursor_lookup_nan_outside_wrap_range`: x = 5 on a width-2
array is outside even the wrap range, and the displayed value is NaN. -/
theorem cursor_lookup_nan_outside_wrap_range_witness :
    ((2 : ℤ) ≤ pyInt 5) ∧
      sync_crosshair_value 1 1 2 (fun _ _ j => if j = 0 then .fin 5 else .fin 7)
        0 none 0 5 0 = Pixel.val Val.nan :=
  ⟨by decide,
   cursor_lookup_nan_outside_wrap_range 1 1 2
     (fun _ _ j => if j = 0 then .fin 5 else .fin 7) 0 none 0 5 0
     (by right; right; right; decide)⟩

/-- C2: on the reachable dock state `c2Dock` (data range `[-10, 10]`,
colour configuration `(viridis, vmin = 3, vmax = 8)`), arming a threshold
rule caches exactly that triple, disables the colour controls and shows
the threshold form; but cancelling the rule restores `(viridis, 1, 8)`:
the cached `vmin = 3` is clamped to 1 because the armed state left the
`vmin` spin box maximum at `vmax`'s armed value 1, so the prior colour
configuration is not restored exactly. -/
theorem threshold_cancel_fails_to_restore_vmin :
    (c2Dock.bind fun d => show_threshold_form d threshGreaterThan).map
        (fun s => (s.colourCache, s.colour.enabled, s.thresholdFormVisible,
          s.newThresholdButtonVisible)) =
      some (("viridis", 3, 8), false, true, false) ∧
    ((c2Dock.bind fun d => show_threshold_form d threshGreaterThan).bind
        cancel_threshold).map
        (fun s => (s.colour.cmap, s.colour.vmin.val, s.colour.vmax.val,
          s.colour.enabled)) =
      some ("viridis", 1, 8, true) ∧
    (1 : ℚ) ≠ 3 := by decide

/-- C3 counterexample: register "A", duplicate twice (suffixes 2 and 3),
close the duplicate with suffix 2 (the counter drops from 3 to 2), then
duplicate again: the new dock also receives suffix 3, so two open
duplicates of "A" display the same disambiguating title "A (3)". -/
theorem duplicate_suffix_collision :
    ((run c3Ops).docks.map fun d => (d.title, d.instanceNumber, d.isCopy)) =
      [("A", 1, false), ("A", 3, true), ("A", 3, true)] ∧
    ((run c3Ops).docks.map Dock.displayedTitle) = ["A", "A (3)", "A (3)"] := by
  decide

/-- Helper: `set_frame` only rewrites the frame index, the displayed image
and the colour state; the stored array, the armed rule, the colour cache
and the threshold scalar are untouched. -/
theorem set_frame_state {st : ThDockState} {f : ℕ} {st' : ThDockState}
    (h : set_frame st f = some st') :
    st'.arr = st.arr ∧ st'.frame = f ∧ st'.thresholdOp = st.thresholdOp ∧
      st'.colourCache = st.colourCache ∧ st'.thresholdVal = st.thresholdVal := by
  unfold set_frame at h
  cases hc : updateClim FUEL st.colour with
  | none => rw [hc] at h; simp at h
  | some c =>
    rw [hc] at h
    simp only [Option.map_some'] at h
    cases h
    exact ⟨rfl, rfl, rfl, rfl, rfl⟩

/-- Helper: with no rule armed, `set_frame` displays the raw transposed
frame slice. -/
theorem set_frame_displayed_raw {st : ThDockState} {f : ℕ} {st' : ThDockState}
    (h : set_frame st f = some st') (hop : st.thresholdOp = none) :
    st'.displayed = fun x y => Pixel.val (st.arr.data [f, y, x]) := by
  unfold set_frame at h
  rw [hop] at h
  cases hc : updateClim FUEL st.colour with
  | none => rw [hc] at h; simp at h
  | some c =>
    rw [hc] at h
    simp only [Option.map_some'] at h
    cases h
    rfl

/-- Helper: arming a threshold rule preserves the array, the frame and
the threshold scalar, and records the rule. -/
theorem show_threshold_form_state {st : ThDockState} {op : ThresholdOperation}
    {st' : ThDockState} (h : show_threshold_form st op = some st') :
    st'.arr = st.arr ∧ st'.frame = st.frame ∧ st'.thresholdOp = some op ∧
      st'.thresholdVal = st.thresholdVal := by
  unfold show_threshold_form at h
  cases h1 : vminSetValue st.colour 0 with
  | none => rw [h1] at h; simp at h
  | some c1 =>
    rw [h1] at h
    simp only [Option.some_bind] at h
    cases h2 : vmaxSetValue c1 1 with
    | none => rw [h2] at h; simp at h
    | some c2 =>
      rw [h2] at h
      simp only [Option.some_bind] at h
      obtain ⟨ha, hf, hop, -, hv⟩ := set_frame_state h
      exact ⟨ha, hf, hop, hv⟩

/-- Helper: cancelling a threshold rule preserves the array and the frame,
clears the rule and re-renders the raw frame slice. -/
theorem cancel_threshold_state {st : ThDockState} {st' : ThDockState}
    (h : cancel_threshold st = some st') :
    st'.arr = st.arr ∧ st'.frame = st.frame ∧ st'.thresholdOp = none ∧
      st'.displayed = fun x y => Pixel.val (st.arr.data [st.frame, y, x]) := by
  unfold cancel_threshold at h
  cases h1 : vminSetValue { st.colour with enabled := true } st.colourCache.2.1 with
  | none => rw [h1] at h; simp at h
  | some c1 =>
    rw [h1] at h
    simp only [Option.some_bind] at h
    cases h2 : vmaxSetValue c1 st.colourCache.2.2 with
    | none => rw [h2] at h; simp at h
    | some c2 =>
      rw [h2] at h
      simp only [Option.some_bind] at h
      obtain ⟨ha, hf, hop, -, -⟩ := set_frame_state h
      have hd := set_frame_displayed_raw h rfl
      exact ⟨ha, hf, hop, hd⟩

/-- C8: arming any threshold rule and rendering any frame leaves the
dock's stored 3-d array exactly as it was, and cancelling the rule
restores the unthresholded display of that frame. -/
theorem threshold_render_preserves_array (st : ThDockState)
    (op : ThresholdOperation) (f : ℕ) :
    ((show_threshold_form st op).bind fun s => set_frame s f).elim True fun st2 =>
      st2.arr = st.arr ∧
      (cancel_threshold st2).elim True fun st3 =>
        st3.arr = st.arr ∧ st3.thresholdOp = none ∧ st3.frame = f ∧
        st3.displayed = fun x y => Pixel.val (st.arr.data [f, y, x]) := by
  cases h1 : show_threshold_form st op with
  | none => simp
  | some s1 =>
    simp only [Option.some_bind]
    cases h2 : set_frame s1 f with
    | none => simp
    | some st2 =>
      obtain ⟨ha1, -, -, -⟩ := show_threshold_form_state h1
      obtain ⟨ha2, hf2, -, -, -⟩ := set_frame_state h2
      have harr : st2.arr = st.arr := ha2.trans ha1
      simp only [Option.elim_some]
      refine ⟨harr, ?_⟩
      cases h3 : cancel_threshold st2 with
      | none => simp
      | some st3 =>
        obtain ⟨ha3, hf3, hop3, hd3⟩ := cancel_threshold_state h3
        simp only [Option.elim_some]
        refine ⟨ha3.trans harr, hop3, hf3.trans hf2, ?_⟩
        rw [hd3, harr, hf2]

/-- The bind chain of `threshold_render_preserves_array` does compute a
result on a concrete dock, so the guarded conclusions above are not
vacuous. -/
theorem threshold_render_chain_computes :
    ((((show_threshold_form (mkThState (mkColourPanel 0 1 0 1)) threshGreaterThan).bind
        fun s => set_frame s 0).bind cancel_threshold)).isSome = true := by decide

/-- Helper: a successful `calcArr` ran to completion and its result keeps
the left operand's shape. -/
theorem calcArr_ok_spec {f : Val → Val → Option Val} {a b newArr : NpArr}
    (h : calcArr f a b = .ok newArr) :
    calcOk f a b = true ∧ newArr.shape = a.shape := by
  unfold calcArr at h
  split at h
  · next hc => cases h; exact ⟨hc, rfl⟩
  · cases h

/-- Helper: on the success path (both operands found, computation clean,
result finite, operand shapes acceptable), `_create` appends exactly one
derived dock titled `"a <op> b"` with the freshly computed array. -/
theorem op_create_appends {st : AppState} {op : SimpleOperation} {aT bT : String}
    {da db : Dock} {newArr : NpArr}
    (ha : (get_original_docks st).find? (fun d => d.title == aT) = some da)
    (hb : (get_original_docks st).find? (fun d => d.title == bT) = some db)
    (hlen : da.arr.shape.length = 3)
    (hshape : st.enforcedShape = none ∨ st.enforcedShape = some (lastThree da.arr.shape))
    (hc : calcArr op.calcFn da.arr db.arr = .ok newArr)
    (hf : hasNonFinite newArr = false) :
    (op_create st op aT bT).docks =
      st.docks ++ [⟨aT ++ " " ++ pyStrOpt op.operator ++ " " ++ bT,
        st.dockInstances (aT ++ " " ++ pyStrOpt op.operator ++ " " ++ bT) + 1,
        true, newArr⟩] := by
  have hsh := (calcArr_ok_spec hc).2
  unfold op_create
  rw [ha, hb]
  dsimp only
  rw [hc]
  dsimp only
  rw [hf]
  simp only [Bool.false_eq_true, if_false]
  have hcond : lastThree newArr.shape = st.enforcedShape.getD (lastThree newArr.shape) := by
    rcases hshape with h | h <;> rw [h] <;> simp [hsh]
  have hlen3 : newArr.shape.length = 3 := by rw [hsh]; exact hlen
  unfold add_array validate_shape_of
  dsimp only
  rw [if_pos hcond]
  dsimp only
  unfold mkDock
  rw [if_pos hlen3]
  dsimp only [keepState]

/-- C5: if running a binary operation raises under `errstate` or its
result contains a NaN or an infinity, `_create` shows a warning and leaves
the application state (dock list and instance counters) untouched;
otherwise it appends exactly one new derived dock. -/
theorem nonfinite_result_blocks_dock_creation (st : AppState)
    (op : SimpleOperation) (aT bT : String) (da db : Dock)
    (ha : (get_original_docks st).find? (fun d => d.title == aT) = some da)
    (hb : (get_original_docks st).find? (fun d => d.title == bT) = some db)
    (hlen : da.arr.shape.length = 3)
    (hshape : st.enforcedShape = none ∨ st.enforcedShape = some (lastThree da.arr.shape)) :
    (calcOk op.calcFn da.arr db.arr = false → op_create st op aT bT = st) ∧
    (∀ newArr, calcArr op.calcFn da.arr db.arr = .ok newArr →
      hasNonFinite newArr = true → op_create st op aT bT = st) ∧
    (∀ newArr, calcArr op.calcFn da.arr db.arr = .ok newArr →
      hasNonFinite newArr = false →
      ∃ d, (op_create st op aT bT).docks = st.docks ++ [d] ∧ d.isDerived = true) := by
  refine ⟨fun hbad => ?_, fun newArr hc hnf => ?_, fun newArr hc hnf => ?_⟩
  · unfold op_create
    rw [ha, hb]
    dsimp only
    unfold calcArr
    rw [hbad]
    simp
  · unfold op_create
    rw [ha, hb]
    dsimp only
    rw [hc]
    dsimp only
    rw [hnf]
    simp
  · exact ⟨_, op_create_appends ha hb hlen hshape hc hnf, rfl⟩

/-- Witness for `nonfinite_result_blocks_dock_creation`: dividing "A"
(all 4s) by "B" (all 0s) raises, and the state is unchanged. -/
theorem nonfinite_result_blocks_dock_creation_witness :
    (get_original_docks twoArrayState).find? (fun d => d.title == "A") = some dockA ∧
    (get_original_docks twoArrayState).find? (fun d => d.title == "B") = some dockB ∧
    dockA.arr.shape.length = 3 ∧
    twoArrayState.enforcedShape = some (lastThree dockA.arr.shape) ∧
    calcOk divisionOp.calcFn dockA.arr dockB.arr = false ∧
    op_create twoArrayState divisionOp "A" "B" = twoArrayState :=
  ⟨by rfl, by rfl, by decide, by rfl, by decide,
   (nonfinite_result_blocks_dock_creation twoArrayState divisionOp "A" "B" dockA dockB
     (by rfl) (by rfl) (by decide) (Or.inr (by rfl))).1 (by decide)⟩

/-- C9: on the success path the dock registered for the derived array is
titled with the left operand title, a space, the operation's operator
symbol, a space and the right operand title. -/
theorem derived_title_format (st : AppState) (op : SimpleOperation)
    (aT bT : String) (da db : Dock) (newArr : NpArr)
    (ha : (get_original_docks st).find? (fun d => d.title == aT) = some da)
    (hb : (get_original_docks st).find? (fun d => d.title == bT) = some db)
    (hlen : da.arr.shape.length = 3)
    (hshape : st.enforcedShape = none ∨ st.enforcedShape = some (lastThree da.arr.shape))
    (hc : calcArr op.calcFn da.arr db.arr = .ok newArr)
    (hf : hasNonFinite newArr = false) :
    ∃ d, (op_create st op aT bT).docks = st.docks ++ [d] ∧
      d.title = aT ++ " " ++ pyStrOpt op.operator ++ " " ++ bT ∧ d.arr = newArr :=
  ⟨_, op_create_appends ha hb hlen hshape hc hf, rfl, rfl⟩

/-- Witness for `derived_title_format`: summing "A" and "B" creates a dock
titled "A + B". -/
theorem derived_title_format_witness :
    calcArr sumOp.calcFn dockA.arr dockB.arr = .ok sumArrAB ∧
    hasNonFinite sumArrAB = false ∧
    ∃ d, (op_create twoArrayState sumOp "A" "B").docks = twoArrayState.docks ++ [d] ∧
      d.title = "A" ++ " " ++ pyStrOpt sumOp.operator ++ " " ++ "B" ∧ d.arr = sumArrAB :=
  ⟨by rfl, by decide,
   derived_title_format twoArrayState sumOp "A" "B" dockA dockB sumArrAB
     (by rfl) (by rfl) (by decide) (Or.inr (by rfl)) (by rfl) (by decide)⟩


/-- Helper: once the enforced shape is fixed, `_add_array` keeps it fixed
(whether or not it raises), and every dock it leaves in the list matches
it. -/
theorem add_array_keep {st : AppState} {e : List ℕ} (arr : NpArr) (title : String)
    (fl : Bool) (h1 : st.enforcedShape = some e)
    (h2 : ∀ d ∈ st.docks, lastThree d.arr.shape = e) :
    (keepState (add_array st arr title fl)).enforcedShape = some e ∧
    ∀ d ∈ (keepState (add_array st arr title fl)).docks, lastThree d.arr.shape = e := by
  unfold add_array validate_shape_of
  rw [h1]
  simp only [Option.getD_some]
  by_cases hc : lastThree arr.shape = e
  · rw [if_pos hc]
    dsimp only
    split
    · dsimp only [keepState]
      exact ⟨rfl, h2⟩
    · next dock hdock =>
      dsimp only [keepState]
      refine ⟨rfl, fun d hd => ?_⟩
      rcases List.mem_append.1 hd with hd | hd
      · exact h2 d hd
      · rcases List.mem_singleton.1 hd with rfl
        have hda : d.arr = arr := by
          unfold mkDock at hdock
          split at hdock
          · cases hdock; rfl
          · cases hdock
        rw [hda]
        exact hc
  · rw [if_neg hc]
    dsimp only [keepState]
    exact ⟨h1, h2⟩

/-- Helper: `_remove_dock` never changes the enforced shape and only ever
drops docks. -/
theorem remove_dock_at_spec (st : AppState) (i : ℕ) :
    (remove_dock_at st i).enforcedShape = st.enforcedShape ∧
    ∀ d ∈ (remove_dock_at st i).docks, d ∈ st.docks := by
  unfold remove_dock_at
  split
  · exact ⟨rfl, fun d hd => (List.eraseIdx_sublist _ _).mem hd⟩
  · exact ⟨rfl, fun d hd => hd⟩

/-- Helper: one application operation keeps the enforced shape fixed, and
keeps every open dock's trailing shape equal to it. -/
theorem step_keep {st : AppState} {e : List ℕ} (op : AppOp)
    (h1 : st.enforcedShape = some e)
    (h2 : ∀ d ∈ st.docks, lastThree d.arr.shape = e) :
    (step st op).enforcedShape = some e ∧
    ∀ d ∈ (step st op).docks, lastThree d.arr.shape = e := by
  cases op with
  | register arr title => exact add_array_keep arr title false h1 h2
  | duplicate i =>
    dsimp only [step]
    split
    · split
      · exact ⟨h1, h2⟩
      · exact add_array_keep _ _ false h1 h2
    · exact ⟨h1, h2⟩
  | close i =>
    dsimp only [step]
    split
    · split
      · obtain ⟨r1, r2⟩ := remove_dock_at_spec st i
        exact ⟨r1.trans h1, fun d hd => h2 d (r2 d hd)⟩
      · exact ⟨h1, h2⟩
    · exact ⟨h1, h2⟩
  | derive op aT bT =>
    dsimp only [step]
    unfold op_create
    split
    · split
      · exact ⟨h1, h2⟩
      · split
        · exact ⟨h1, h2⟩
        · exact add_array_keep _ _ true h1 h2
    · exact ⟨h1, h2⟩

/-- Helper: folding any operation sequence keeps the enforced shape and
the per-dock shape property. -/
theorem foldl_keep (ops : List AppOp) {st : AppState} {e : List ℕ}
    (h1 : st.enforcedShape = some e)
    (h2 : ∀ d ∈ st.docks, lastThree d.arr.shape = e) :
    (ops.foldl step st).enforcedShape = some e ∧
    ∀ d ∈ (ops.foldl step st).docks, lastThree d.arr.shape = e := by
  induction ops generalizing st with
  | nil => exact ⟨h1, h2⟩
  | cons op rest ih =>
    rw [List.foldl_cons]
    obtain ⟨k1, k2⟩ := step_keep op h1 h2
    exact ih k1 k2

/-- Helper: the very first registration fixes the enforced shape to the
first array's trailing three dimensions, and any dock it creates carries
that shape. -/
theorem first_register_keep (arr0 : NpArr) (t0 : String) :
    (step initState (.register arr0 t0)).enforcedShape = some (lastThree arr0.shape) ∧
    ∀ d ∈ (step initState (.register arr0 t0)).docks,
      lastThree d.arr.shape = lastThree arr0.shape := by
  dsimp only [step]
  unfold add_array validate_shape_of initState
  dsimp only
  simp only [Option.getD_none]
  rw [if_pos trivial]
  dsimp only
  split
  · dsimp only [keepState]
    exact ⟨rfl, by simp⟩
  · next dock hdock =>
    dsimp only [keepState]
    refine ⟨rfl, fun d hd => ?_⟩
    rcases List.mem_singleton.1 ((List.nil_append [dock]) ▸ hd) with rfl
    have hda : d.arr = arr0 := by
      unfold mkDock at hdock
      split at hdock
      · cases hdock; rfl
      · cases hdock
    rw [hda]

/-- C1: over any operation sequence starting with a first registration,
the enforced shape is the first registered array's `shape[-3:]` and every
open dock's `shape[-3:]` equals it; a registration whose `shape[-3:]`
differs from the enforced shape raises a descriptive `ValueError` and
leaves the state, in particular the dock list, exactly unchanged. -/
theorem registered_shapes_match_first :
    (∀ (arr0 : NpArr) (t0 : String) (ops : List AppOp),
      (run (.register arr0 t0 :: ops)).enforcedShape = some (lastThree arr0.shape) ∧
      ∀ d ∈ (run (.register arr0 t0 :: ops)).docks,
        lastThree d.arr.shape = lastThree arr0.shape) ∧
    (∀ (st : AppState) (arr : NpArr) (title : String) (fl : Bool) (e : List ℕ),
      st.enforcedShape = some e → lastThree arr.shape ≠ e →
      ∃ msg, add_array st arr title fl = .error (msg, st)) := by
  constructor
  · intro arr0 t0 ops
    have hbase := first_register_keep arr0 t0
    have hrun : run (.register arr0 t0 :: ops) =
        ops.foldl step (step initState (.register arr0 t0)) := by
      unfold run
      rw [List.foldl_cons]
    rw [hrun]
    exact foldl_keep ops hbase.1 hbase.2
  · intro st arr title fl e h1 hne
    unfold add_array validate_shape_of
    rw [h1]
    simp only [Option.getD_some]
    rw [if_neg hne]
    exact ⟨_, rfl⟩

/-- Witness for `registered_shapes_match_first`: registering a `[1,1,1]`
array fixes the enforced shape, and a later `[9,9,9]` registration is
rejected without touching the state. -/
theorem registered_shapes_match_first_witness :
    ((run [.register arrFour "A"]).enforcedShape = some (lastThree arrFour.shape) ∧
      ∀ d ∈ (run [.register arrFour "A"]).docks,
        lastThree d.arr.shape = lastThree arrFour.shape) ∧
    (twoArrayState.enforcedShape = some [1, 1, 1] ∧
      lastThree [9, 9, 9] ≠ [1, 1, 1] ∧
      ∃ msg, add_array twoArrayState ⟨[9, 9, 9], fun _ => .fin 0⟩ "C" false =
        .error (msg, twoArrayState)) :=
  ⟨registered_shapes_match_first.1 arrFour "A" [],
   by rfl, by decide,
   registered_shapes_match_first.2 twoArrayState ⟨[9, 9, 9], fun _ => .fin 0⟩ "C" false
     [1, 1, 1] (by rfl) (by decide)⟩


set_option maxHeartbeats 2000000 in
/-- Helper: when the spin values are consistent (`vmin` value at most
`vmax` value, each value inside its own range), `update_clim` emits no
further signals: it applies the levels and tightens the two facing
bounds, independently of the remaining fuel. -/
theorem updateClim_no_emit (n : ℕ) (st : ColourState)
    (h1 : st.vmin.val ≤ st.vmax.val) (h2 : st.vmax.val ≤ st.vmax.hi)
    (h3 : st.vmin.lo ≤ st.vmin.val) :
    updateClim (n + 1) st = some
      ⟨⟨st.vmin.lo, st.vmax.val, st.vmin.val⟩, ⟨st.vmin.val, st.vmax.hi, st.vmax.val⟩,
        st.cmap, (st.vmin.val, st.vmax.val), st.enabled⟩ := by
  rw [updateClim]
  unfold setMinimumPure setMaximumPure
  dsimp only
  rw [max_eq_left (h1.trans h2), min_eq_right h2, max_eq_right h1]
  rw [if_pos rfl]
  simp only [Bool.false_eq_true, if_false]
  dsimp only
  rw [min_eq_left (h3.trans h1), max_eq_right h3, min_eq_right h1]
  rw [if_pos rfl]
  simp only [Bool.false_eq_true, if_false]


/-- Helper: a user assignment to the `vmin` spin box keeps the colour
state well-formed and completes within the modelled signal fuel. -/
theorem vminSetValue_inv (st : ColourState) (h : ClimInv st) (v : ℚ) :
    ∃ st', vminSetValue st v = some st' ∧ ClimInv st' := by
  obtain ⟨a1, a2, a3, a4, a5, a6, a7⟩ := h
  unfold vminSetValue setValuePure
  dsimp only
  by_cases hch : max st.vmin.lo (min st.vmin.hi v) = st.vmin.val
  · rw [if_pos hch]
    simp only [Bool.false_eq_true, if_false]
    refine ⟨_, rfl, hch ▸ ⟨a1, a2, a3, a4, a5, a6, a7⟩⟩
  · rw [if_neg hch]
    have hb1 : max st.vmin.lo (min st.vmin.hi v) ≤ st.vmax.val := by
      rw [← a5]
      exact max_le (a1.trans a2) (min_le_left _ _)
    have hfuel : FUEL = 4 + 1 := rfl
    rw [hfuel]
    refine ⟨_, updateClim_no_emit 4 _ hb1 a4 (le_max_left _ _), ?_⟩
    exact ⟨le_max_left _ _, hb1, hb1, a4, rfl, rfl, rfl⟩

/-- Helper: a user assignment to the `vmax` spin box keeps the colour
state well-formed and completes within the modelled signal fuel. -/
theorem vmaxSetValue_inv (st : ColourState) (h : ClimInv st) (v : ℚ) :
    ∃ st', vmaxSetValue st v = some st' ∧ ClimInv st' := by
  obtain ⟨a1, a2, a3, a4, a5, a6, a7⟩ := h
  unfold vmaxSetValue setValuePure
  dsimp only
  by_cases hch : max st.vmax.lo (min st.vmax.hi v) = st.vmax.val
  · rw [if_pos hch]
    simp only [Bool.false_eq_true, if_false]
    refine ⟨_, rfl, hch ▸ ⟨a1, a2, a3, a4, a5, a6, a7⟩⟩
  · rw [if_neg hch]
    have hb1 : st.vmin.val ≤ max st.vmax.lo (min st.vmax.hi v) := by
      rw [← a6]
      exact le_max_left _ _
    have hb2 : max st.vmax.lo (min st.vmax.hi v) ≤ st.vmax.hi :=
      max_le (a3.trans a4) (min_le_left _ _)
    have hfuel : FUEL = 4 + 1 := rfl
    rw [hfuel]
    refine ⟨_, updateClim_no_emit 4 _ hb1 hb2 a1, ?_⟩
    exact ⟨a1, hb1, hb1, hb2, rfl, rfl, rfl⟩

/-- Helper: changing the colormap text does not touch the spin boxes. -/
theorem cmapSet_inv (st : ColourState) (h : ClimInv st) (s : String) :
    ClimInv (cmapSetCurrentText st s) := by
  unfold cmapSetCurrentText
  split
  · exact h
  · exact h

/-- Helper: every single colour-control interaction preserves the
well-formedness invariant and completes. -/
theorem stepEvent_inv (st : ColourState) (h : ClimInv st) (e : PanelEvent) :
    ∃ st', stepEvent st e = some st' ∧ ClimInv st' := by
  cases e with
  | setVmin q => exact vminSetValue_inv st h q
  | setVmax q => exact vmaxSetValue_inv st h q
  | setCmap s => exact ⟨_, rfl, cmapSet_inv st h s⟩

/-- Helper: any interaction sequence preserves the well-formedness
invariant and completes. -/
theorem runEvents_inv (evs : List PanelEvent) (st : ColourState) (h : ClimInv st) :
    ∃ st', runEvents evs st = some st' ∧ ClimInv st' := by
  induction evs generalizing st with
  | nil => exact ⟨st, rfl, h⟩
  | cons e rest ih =>
    obtain ⟨st1, he, h1⟩ := stepEvent_inv st h e
    obtain ⟨st', hrun, h'⟩ := ih st1 h1
    refine ⟨st', ?_, h'⟩
    unfold runEvents
    rw [he, Option.some_bind]
    exact hrun

/-- Helper: a freshly built colour panel is well-formed after the
constructor's first `update_clim`, given the percentile ordering
`data_min <= p1 <= p99 <= data_max` that numpy guarantees. -/
theorem initColour_inv (dataMin dataMax p1 p99 : ℚ)
    (o1 : dataMin ≤ p1) (o2 : p1 ≤ p99) (o3 : p99 ≤ dataMax) :
    ∃ st0, initColour dataMin dataMax p1 p99 = some st0 ∧ ClimInv st0 := by
  unfold initColour mkColourPanel
  have hfuel : FUEL = 4 + 1 := rfl
  rw [hfuel]
  refine ⟨_, updateClim_no_emit 4 _ o2 o3 o1, ?_⟩
  exact ⟨o1, o2, o2, o3, rfl, rfl, rfl⟩

/-- C10: starting from a freshly constructed dock's colour panel, any
sequence of spin-box and colormap interactions leaves `vmin <= vmax`;
moreover `vmax`'s allowed minimum always equals `vmin`'s value, `vmin`'s
allowed maximum always equals `vmax`'s value, and the levels applied to
the image are exactly the `(vmin, vmax)` value pair. -/
theorem clim_spinbox_invariant (dataMin dataMax p1 p99 : ℚ)
    (evs : List PanelEvent) (o1 : dataMin ≤ p1) (o2 : p1 ≤ p99)
    (o3 : p99 ≤ dataMax) :
    ∃ st0 st', initColour dataMin dataMax p1 p99 = some st0 ∧
      runEvents evs st0 = some st' ∧
      st'.vmin.val ≤ st'.vmax.val ∧ st'.vmax.lo = st'.vmin.val ∧
      st'.vmin.hi = st'.vmax.val ∧ st'.levels = (st'.vmin.val, st'.vmax.val) := by
  obtain ⟨st0, hi0, hInv0⟩ := initColour_inv dataMin dataMax p1 p99 o1 o2 o3
  obtain ⟨st', hrun, hInv⟩ := runEvents_inv evs st0 hInv0
  obtain ⟨a1, a2, a3, a4, a5, a6, a7⟩ := hInv
  exact ⟨st0, st', hi0, hrun, a5 ▸ a2, a6, a5, a7⟩

/-- Witness for `clim_spinbox_invariant`: data range `[0, 10]`,
percentiles 1 and 9, and a user trying to push `vmin` above `vmax` and
`vmax` below `vmin`. -/
theorem clim_spinbox_invariant_witness :
    (0 : ℚ) ≤ 1 ∧ (1 : ℚ) ≤ 9 ∧ (9 : ℚ) ≤ 10 ∧
    ∃ st0 st', initColour 0 10 1 9 = some st0 ∧
      runEvents [.setVmin 10, .setVmax 0] st0 = some st' ∧
      st'.vmin.val ≤ st'.vmax.val ∧ st'.vmax.lo = st'.vmin.val ∧
      st'.vmin.hi = st'.vmax.val ∧ st'.levels = (st'.vmin.val, st'.vmax.val) :=
  ⟨by decide, by decide, by decide,
   clim_spinbox_invariant 0 10 1 9 [.setVmin 10, .setVmax 0]
     (by decide) (by decide) (by decide)⟩

/-- Helper: an element of a list with one position erased is related (in
one direction or the other) by any pairwise relation to the erased
element. -/
theorem mem_eraseIdx_pairwise {α : Type} {R : α → α → Prop} :
    ∀ (l : List α) (i : ℕ) (hi : i < l.length), l.Pairwise R →
      ∀ a ∈ l.eraseIdx i, R a (l.get ⟨i, hi⟩) ∨ R (l.get ⟨i, hi⟩) a := by
  intro l
  induction l with
  | nil => intro i hi; simp at hi
  | cons x xs ih =>
    intro i hi hp a ha
    cases i with
    | zero =>
      exact Or.inr (List.rel_of_pairwise_cons hp ha)
    | succ j =>
      have hj : j < xs.length := by
        simpa using hi
      rcases List.mem_cons.1 ha with rfl | ha'
      · exact Or.inl (List.rel_of_pairwise_cons hp (List.get_mem xs j hj))
      · exact ih j hj hp.of_cons a ha'

/-- Helper: `_add_array` preserves the dock-bookkeeping invariant: the new
dock gets instance number `counter + 1`, strictly above every open dock of
its title. -/
theorem add_array_titleInv (st : AppState) (arr : NpArr) (title : String)
    (fl : Bool) (h : TitleInv st) :
    TitleInv (keepState (add_array st arr title fl)) := by
  obtain ⟨c0, c1, c2⟩ := h
  unfold add_array validate_shape_of
  by_cases hval : lastThree arr.shape = st.enforcedShape.getD (lastThree arr.shape)
  · rw [if_pos hval]
    dsimp only
    split
    · dsimp only [keepState]
      refine ⟨?_, ?_, c2⟩
      · intro t
        dsimp only
        by_cases ht : t = title
        · rw [if_pos ht]
          have := c0 title
          omega
        · rw [if_neg ht]
          exact c0 t
      · intro d hd
        dsimp only
        refine ⟨(c1 d hd).1, ?_⟩
        by_cases ht : d.title = title
        · rw [if_pos ht]
          have := (c1 d hd).2
          rw [ht] at this
          omega
        · rw [if_neg ht]
          exact (c1 d hd).2
    · next dock hdock =>
      unfold mkDock at hdock
      split at hdock
      · cases hdock
        dsimp only [keepState]
        refine ⟨?_, ?_, ?_⟩
        · intro t
          dsimp only
          by_cases ht : t = title
          · rw [if_pos ht]
            have := c0 title
            omega
          · rw [if_neg ht]
            exact c0 t
        · intro d hd
          dsimp only
          rcases List.mem_append.1 hd with hd | hd
          · refine ⟨(c1 d hd).1, ?_⟩
            by_cases ht : d.title = title
            · rw [if_pos ht]
              have := (c1 d hd).2
              rw [ht] at this
              omega
            · rw [if_neg ht]
              exact (c1 d hd).2
          · rcases List.mem_singleton.1 hd with rfl
            dsimp only
            rw [if_pos rfl]
            have := c0 title
            omega
        · rw [List.pairwise_append]
          refine ⟨c2, List.pairwise_singleton _ _, ?_⟩
          intro d1 hd1 d2 hd2
          rcases List.mem_singleton.1 hd2 with rfl
          intro ht
          dsimp only at ht ⊢
          have := (c1 d1 hd1).2
          rw [ht] at this
          omega
      · cases hdock
  · rw [if_neg hval]
    dsimp only [keepState]
    exact ⟨c0, c1, c2⟩

/-- Helper: closing the dock whose instance number equals its title's
counter preserves the dock-bookkeeping invariant. -/
theorem close_titleInv (st : AppState) (i : ℕ) (h : TitleInv st)
    (htop : ∀ hi : i < st.docks.length,
      (st.docks.get ⟨i, hi⟩).instanceNumber =
        st.dockInstances (st.docks.get ⟨i, hi⟩).title) :
    TitleInv (step st (.close i)) := by
  obtain ⟨c0, c1, c2⟩ := h
  dsimp only [step]
  split
  · next hi =>
    split
    · unfold remove_dock_at
      rw [dif_pos hi]
      dsimp only
      have hdmem := List.get_mem st.docks i hi
      have hdb := c1 _ hdmem
      have hdc := htop hi
      refine ⟨?_, ?_, c2.sublist (List.eraseIdx_sublist _ _)⟩
      · intro t
        dsimp only
        by_cases ht : t = (st.docks.get ⟨i, hi⟩).title
        · rw [if_pos ht, ht]
          omega
        · rw [if_neg ht]
          exact c0 t
      · intro d hd
        dsimp only
        have hmem := (List.eraseIdx_sublist st.docks i).mem hd
        have hb := c1 d hmem
        refine ⟨hb.1, ?_⟩
        by_cases ht : d.title = (st.docks.get ⟨i, hi⟩).title
        · rw [if_pos ht, ht]
          rcases mem_eraseIdx_pairwise st.docks i hi c2 d hd with hR | hR
          · have := hR ht
            omega
          · have := hR ht.symm
            rw [ht] at hb
            omega
        · rw [if_neg ht]
          exact hb.2
    · exact ⟨c0, c1, c2⟩
  · exact ⟨c0, c1, c2⟩

/-- Helper: every reachable state (under top-of-counter closes) satisfies
the dock-bookkeeping invariant. -/
theorem reach_titleInv {st : AppState} (h : ReachL st) : TitleInv st := by
  induction h with
  | init =>
    exact ⟨fun t => le_refl 0, fun d hd => absurd hd (List.not_mem_nil d),
      List.Pairwise.nil⟩
  | reg arr title hst ih => exact add_array_titleInv _ arr title false ih
  | dup i hst ih =>
    dsimp only [step]
    split
    · split
      · exact ih
      · exact add_array_titleInv _ _ _ false ih
    · exact ih
  | derive op aT bT hst ih =>
    dsimp only [step]
    unfold op_create
    split
    · split
      · exact ih
      · split
        · exact ih
        · exact add_array_titleInv _ _ _ true ih
    · exact ih
  | close i htop hst ih => exact close_titleInv _ i ih htop

/-- C3 amended: provided every close targets the newest duplicate of its
title (instance number equal to the title's counter), any two open docks
sharing a base title carry distinct numeric suffixes, and a duplicate's
displayed title always differs from the original's plain title. -/
theorem duplicate_suffixes_distinct_under_lifo_close (st : AppState)
    (h : ReachL st) :
    (st.docks.Pairwise fun d1 d2 => d1.title = d2.title →
      d1.instanceNumber ≠ d2.instanceNumber) ∧
    ∀ d ∈ st.docks, d.isCopy = true → d.displayedTitle ≠ d.title := by
  obtain ⟨-, -, c2⟩ := reach_titleInv h
  constructor
  · exact c2.imp fun hR ht => ne_of_lt (hR ht)
  · intro d hd hc
    have h1 : d.instanceNumber ≠ 1 := by
      unfold Dock.isCopy at hc
      have := of_decide_eq_true hc
      omega
    unfold Dock.displayedTitle
    rw [if_neg h1]
    intro heq
    have hlen := congrArg String.length heq
    rw [String.length_append, String.length_append, String.length_append] at hlen
    have h2 : (" (").length = 2 := rfl
    have h3 : (")").length = 1 := rfl
    omega

/-- Witness for `duplicate_suffixes_distinct_under_lifo_close`: register
"A" and duplicate it once. -/
theorem duplicate_suffixes_distinct_under_lifo_close_witness :
    ((run [.register arrFour "A", .duplicate 0]).docks.Pairwise fun d1 d2 =>
      d1.title = d2.title → d1.instanceNumber ≠ d2.instanceNumber) ∧
    ∀ d ∈ (run [.register arrFour "A", .duplicate 0]).docks, d.isCopy = true →
      d.displayedTitle ≠ d.title :=
  duplicate_suffixes_distinct_under_lifo_close _
    (ReachL.dup 0 (ReachL.reg arrFour "A" ReachL.init))
